import Mathlib

/-!
Shallow embedding of `src/pre_segment_using_alignments.py` (the alignment-aware
segment splitter) and proofs about its behaviour.

Modelling conventions:
* Times are integers in fixed-point units of `1e-5` seconds (the source's own
  epsilon). The Python code works with floats, but the algorithm only ever
  adds, subtracts and compares times, so any ordered additive model is
  faithful; integer units keep every definition kernel-executable and make the
  source's `EPS = 1e-5` the unit `1`. `sec n` denotes `n` seconds.
* A supervision's `text` is modelled as its whitespace-token list (Python code
  only ever uses `text.split()` and `' '.join(tokens)`, which are mutually
  inverse on lists of nonempty space-free tokens).
* `sup.alignment` is modelled as `Option (List Word)`: `none` stands for a
  missing/absent `word` alignment entry (accessing it raises in Python and is an
  `Err` here).
* Python exceptions (failed `assert`, `max()` of an empty sequence, indexing
  errors, attribute errors on `None`) are modelled by `Except Err`; the
  bounded `while` loop is run on explicit fuel, exhaustion being its own error.
* The close-out loop reads each `[sup, idx]` pair of the group; the model
  extracts the pairs up front (`deOption`) where Python would raise on the first
  `None` supervision it touches mid-loop — this changes only which exception is
  raised on already-failing inputs, never an `ok` result.
-/

set_option maxRecDepth 4000
set_option synthInstance.maxSize 512

/-- Python exception outcomes (plus fuel exhaustion of the modelled loop). -/
inductive Err where
  | assertionError
  | valueError
  | indexError
  | keyError
  | attributeError
  | typeError
  | fuelExhausted
deriving DecidableEq, Repr

/-- Times in integer multiples of `1e-5` seconds. -/
abbrev Time := ℤ

/-- `n` seconds as a `Time`. -/
def sec (n : ℤ) : Time := 100000 * n

/-- The characters removed by `_normalize_word`
(`PROCESSING_REGEX_STR` in the source). -/
def PROCESSING_CHARS : List Char :=
  ['!', Char.ofNat 34, '#', '$', '%', '&', '(', ')', '*', '+', ',', '.', '/',
   ':', ';', '<', '=', '>', '?', '@', '[', Char.ofNat 92, ']', '^', '_',
   Char.ofNat 96, Char.ofNat 39, Char.ofNat 123, '|', Char.ofNat 125, '~']

/-- `_normalize_word`: strip the punctuation characters, then lowercase. -/
def normalize_word (w : String) : String :=
  String.mk (((w.data).filter (fun c => !(PROCESSING_CHARS.contains c))).map Char.toLower)

/-- Helper for `pySplit`: accumulate the current (reversed) token. -/
def pySplitAux : List Char → List Char → List String
  | acc, [] => if acc = [] then [] else [String.mk acc.reverse]
  | acc, c :: cs =>
    if c = ' ' then
      if acc = [] then pySplitAux [] cs else String.mk acc.reverse :: pySplitAux [] cs
    else pySplitAux (c :: acc) cs

/-- Python `str.split()` restricted to spaces: split on runs of spaces and
drop empty pieces. -/
def pySplit (s : String) : List String := pySplitAux [] s.data

/-- `ALIGNMENT_WORD_MAP` from the source. -/
def ALIGNMENT_WORD_MAP : List (String × String) := [("mm-hmm", "mmm")]

/-- `EPS` from the source (`1e-5` seconds = one time unit). -/
def EPS : Time := 1

/-- `_segment_end`: inclusive end bound of a window. -/
def segment_end (start_time max_len : Time) : Time := start_time + max_len - EPS

/-- One word-level alignment item (lhotse `AlignmentItem`). -/
structure Word where
  symbol : String
  start : Time
  duration : Time
deriving DecidableEq, Repr

/-- `word.end = word.start + word.duration`. -/
def Word.endTime (w : Word) : Time := w.start + w.duration

/-- A supervision (an `UtteranceSpan`), text kept as its token list. -/
structure Supervision where
  id : String
  speaker : String
  start : Time
  duration : Time
  text : List String
  alignment : Option (List Word)
deriving DecidableEq, Repr

/-- `sup.end = sup.start + sup.duration`. -/
def Supervision.endTime (s : Supervision) : Time := s.start + s.duration

/-- lhotse `SupervisionSegment.with_offset`: shift the start and every
alignment item by `d` (the float rounding to 8 digits is the identity on the
decimally-finite rationals used here). -/
def Supervision.with_offset (s : Supervision) (d : Time) : Supervision :=
  { s with start := s.start + d,
           alignment := s.alignment.map (fun l => l.map (fun w => { w with start := w.start + d })) }

/-- A recording segment (lhotse cut); `perSpkFlags` models
`custom["per_spk_flags"]`. -/
structure Cut where
  id : String
  start : Time
  duration : Time
  supervisions : List Supervision
  perSpkFlags : Option (List (String × Bool))
deriving DecidableEq, Repr

/-- State of the token/alignment matching loop of
`select_words_within_segment`: accumulated selection plus the cursor
(`alig_idx`, the remaining normalized sub-words of the current entry) and
whether the loop has hit `break`. -/
structure MatchState where
  words : List String
  aligs : List Word
  fst : Time
  last : Time
  aligIdx : ℕ
  splitRem : List String
  stopped : Bool
deriving DecidableEq, Repr

/-- Normalized sub-words of an (optional) alignment entry's symbol. -/
def normalizedSubwords (w? : Option Word) : List String :=
  match w? with
  | none => []
  | some w => (pySplit w.symbol).map normalize_word

/-- One iteration of the `for w in sup.text.split()` loop of
`select_words_within_segment`. An alignment entry whose symbol has no
sub-words mirrors Python's `alig_symbol_split[0]` `IndexError`. -/
def matchTok (aligs : List Word) (segStart segEnd : Time) (st : MatchState) (w : String) :
    Except Err MatchState :=
  if st.stopped then .ok st else
  match aligs.get? st.aligIdx with
  | none => .ok { st with words := st.words ++ if st.fst = -1 then [] else [w] }
  | some cur =>
    match st.splitRem with
    | [] => .error .indexError
    | s0 :: rest =>
      let aw := normalize_word w
      if aw = s0 ∨ List.lookup aw ALIGNMENT_WORD_MAP = some s0 then
        if cur.endTime > segEnd then .ok { st with stopped := true }
        else
          let st1 :=
            if cur.start ≥ segStart then
              { st with fst := if st.fst = -1 then cur.start else st.fst,
                        words := st.words ++ [w],
                        aligs := st.aligs ++ [cur] }
            else st
          let st2 := { st1 with splitRem := rest, last := cur.endTime }
          if rest.isEmpty then
            .ok { st2 with aligIdx := st.aligIdx + 1,
                           splitRem := normalizedSubwords (aligs.get? (st.aligIdx + 1)) }
          else .ok st2
      else .ok { st with words := st.words ++ if st.fst = -1 then [] else [w] }

/-- Fold `matchTok` over the utterance's tokens. -/
def matchFold (aligs : List Word) (segStart segEnd : Time) :
    MatchState → List String → Except Err MatchState
  | st, [] => .ok st
  | st, w :: ws =>
    match matchTok aligs segStart segEnd st w with
    | .error e => .error e
    | .ok st' => matchFold aligs segStart segEnd st' ws

/-- Result tuple of `select_words_within_segment`. -/
structure SelRes where
  words : List String
  aligs : List Word
  fst : Time
  last : Time
  aligIdx : ℕ
deriving DecidableEq, Repr

/-- `select_words_within_segment`: select words and alignment items of `sup`
inside `[segStart, segEnd]`. A missing word alignment raises (the source reads
`sup.alignment[WORD_ALIGNMENT_KEY]` before its own guard). -/
def select_words_within_segment (sup : Supervision) (segStart segEnd : Time) : Except Err SelRes :=
  match sup.alignment with
  | none => .error .keyError
  | some aligs =>
    match matchFold aligs segStart segEnd
        { words := [], aligs := [], fst := -1, last := sup.start, aligIdx := 0,
          splitRem := normalizedSubwords (aligs.get? 0), stopped := false } sup.text with
    | .error e => .error e
    | .ok st => .ok { words := st.words, aligs := st.aligs, fst := st.fst,
                      last := st.last, aligIdx := st.aligIdx }

/-- Python's `a in b` on strings: contiguous substring test. -/
def strIn (a b : String) : Bool := decide (a.data <:+: b.data)

/-- `get_overlapping_sups`: members of the previous group whose interval
contains `sup.start` and whose id does not contain `sup.id` as a substring. -/
def get_overlapping_sups (prev_group : List (Supervision × ℕ)) (sup : Supervision) : List (Supervision × ℕ) :=
  prev_group.filter
    (fun s => decide (s.1.start ≤ sup.start) && decide (sup.start < s.1.endTime)
              && !(strIn sup.id s.1.id))

/-- A `[supervision, idx]` pair of the working group; the supervision slot is
optional because the seed stored at a close-out is the raw loop variable,
which is `None` once the scan has run past the last supervision. -/
abbrev Entry := Option Supervision × ℕ

/-- Read the supervision of an entry (`None` would raise in Python). -/
def getSup (e : Entry) : Except Err Supervision :=
  match e.1 with
  | some s => .ok s
  | none => .error .attributeError

/-- `current_sup_group[0][0].start` on a list of entries. -/
def headStartE (l : List Entry) : Except Err Time :=
  match l with
  | [] => .error .indexError
  | (none, _) :: _ => .error .attributeError
  | (some g, _) :: _ => .ok g.start

/-- Extract all `[supervision, idx]` pairs, failing if any slot is `None`. -/
def deOption : List Entry → Except Err (List (Supervision × ℕ))
  | [] => .ok []
  | (none, _) :: _ => .error .attributeError
  | (some s, i) :: l =>
    match deOption l with
    | .error e => .error e
    | .ok r => .ok ((s, i) :: r)

/-- Python dict assignment `d[k] = v` on an association list. -/
def setFlag : List (String × Bool) → String → Bool → List (String × Bool)
  | [], k, v => [(k, v)]
  | p :: ps, k, v => if p.1 = k then (k, v) :: ps else p :: setFlag ps k v

/-- Python `enumerate`, starting at `n`. -/
def pyEnum {α : Type} : ℕ → List α → List (ℕ × α)
  | _, [] => []
  | n, x :: xs => (n, x) :: pyEnum (n + 1) xs

/-- Accumulator of the close-out loop over the group: the group list with
tombstones (`None` marks a removed entry), the per-speaker flags, the
fallback index (`-1` = unset), the falling-back flag and `found_exceeding`. -/
structure CloseAcc where
  updated : List (Option (Supervision × ℕ))
  flags : List (String × Bool)
  fb : ℤ
  isFB : Bool
  found : Bool
deriving DecidableEq, Repr

/-- Read `current_sup_group[0][0].start` from the (possibly tombstoned)
group list; a tombstoned head is Python's `None[0]` `TypeError`. -/
def readHeadStart (l : List (Option (Supervision × ℕ))) : Except Err Time :=
  match l with
  | [] => .error .indexError
  | none :: _ => .error .typeError
  | some (s, _) :: _ => .ok s.start

/-- One iteration of the close-out loop
(`for i, (s, sidx) in enumerate(current_sup_group)` in `_split_cut_perseg`):
default the speaker's flag to `False`; if the supervision overflows the
window, trim it via `select_words_within_segment` (or tombstone it when not
even the first aligned word fits) and update the fallback index when the
current one is `-1` or exceeds the *position in the group* `i`. -/
def closeStep (max_len : Time) (acc : CloseAcc) (p : ℕ × Supervision × ℕ) : Except Err CloseAcc :=
  let i := p.1
  let s := p.2.1
  let sidx := p.2.2
  let flags1 := setFlag acc.flags s.speaker false
  match readHeadStart acc.updated with
  | .error e => .error e
  | .ok gStart =>
    if s.endTime - gStart > max_len then
      match select_words_within_segment s gStart (segment_end gStart max_len) with
      | .error e => .error e
      | .ok r =>
        let upd2 :=
          if r.aligIdx = 0 then acc.updated.set i none
          else acc.updated.set i (some ({ s with duration := r.last - s.start,
                                                 text := r.words,
                                                 alignment := some r.aligs }, sidx))
        let flags2 := if r.aligIdx = 0 then flags1 else setFlag flags1 s.speaker true
        let fb2 := if acc.fb = -1 ∨ acc.fb > (i : ℤ) then (sidx : ℤ) else acc.fb
        let isFB2 := if acc.fb = -1 ∨ acc.fb > (i : ℤ) then true else acc.isFB
        .ok { updated := upd2, flags := flags2, fb := fb2, isFB := isFB2, found := true }
    else .ok { acc with flags := flags1 }

/-- Fold `closeStep` over the enumerated group. -/
def closeFold (max_len : Time) : CloseAcc → List (ℕ × Supervision × ℕ) → Except Err CloseAcc
  | acc, [] => .ok acc
  | acc, p :: l =>
    match closeStep max_len acc p with
    | .error e => .error e
    | .ok a1 => closeFold max_len a1 l

/-- `max(x[0].end for x in group)` over a nonempty group. -/
def groupMaxEnd (e0 : Supervision × ℕ) (rest : List (Supervision × ℕ)) : Time :=
  rest.foldl (fun m e => max m e.1.endTime) e0.1.endTime

/-- `min(x[0].start for x in group)` over a nonempty group. -/
def groupMinStart (e0 : Supervision × ℕ) (rest : List (Supervision × ℕ)) : Time :=
  rest.foldl (fun m e => min m e.1.start) e0.1.start

/-- Derived id `f"{id}-{a}-{b}"`. -/
def derivedId (i : String) (a b : ℕ) : String :=
  i ++ "-" ++ toString a ++ "-" ++ toString b

/-- State of the `while idx < len(sups) + 1` scan of `_split_cut_perseg`. -/
structure SplitState where
  supGroups : List (List (Supervision × ℕ))
  supGroupFlags : List (List (String × Bool))
  currentGroup : List Entry
  currentFlags : List (String × Bool)
  fallbackIdx : ℤ
  isFallingBack : Bool
  startIdx : ℕ
  idx : ℕ
deriving DecidableEq, Repr

/-- The roll-back-or-advance decision at the bottom of the loop body:
if a fallback index is recorded and it is *greater* than the scan position
that started the just-closed group, resume there (clearing the record);
otherwise advance the scan index. -/
def applyAdvance (st : SplitState) : SplitState :=
  if st.fallbackIdx ≠ -1 ∧ (st.startIdx : ℤ) < st.fallbackIdx then
    { st with idx := st.fallbackIdx.toNat, fallbackIdx := -1 }
  else { st with idx := st.idx + 1 }

/-- The guard choosing the accumulate branch:
`sup is not None and (not current_sup_group or sup.start - group[0][0].start < max_len)`. -/
def accumCond (sups : List Supervision) (max_len : Time) (st : SplitState) : Except Err Bool :=
  match sups.get? st.idx with
  | none => .ok false
  | some s =>
    match st.currentGroup with
    | [] => .ok true
    | e :: _ =>
      match e.1 with
      | none => .error .attributeError
      | some g0 => .ok (decide (s.start - g0.start < max_len))

/-- The loop over `get_overlapping_sups` inside the accumulate branch:
for each overlapping member of the previous group, re-select the words of the
*original* supervision (`cut.supervisions[ovl_idx]`) inside the new window and
append the fragment (with an `_ovl` id) when anything was selected. -/
def ovlFold (cut : Cut) (max_len : Time) (s : Supervision) :
    List Entry → List (Supervision × ℕ) → Except Err (List Entry)
  | grp, [] => .ok grp
  | grp, (_, ovlIdx) :: rest =>
    match cut.supervisions.get? ovlIdx with
    | none => .error .indexError
    | some ovlSup =>
      if ovlSup.speaker = s.speaker then .error .assertionError
      else
        match select_words_within_segment ovlSup s.start (segment_end s.start max_len) with
        | .error e => .error e
        | .ok r =>
          if r.fst ≠ -1 then
            let frag : Supervision :=
              { ovlSup with id := derivedId ovlSup.id ovlIdx grp.length ++ "_ovl",
                            start := r.fst, duration := r.last - r.fst,
                            text := r.words, alignment := some r.aligs }
            let grp2 := grp ++ [(some frag, ovlIdx)]
            if r.fst < 0 then .error .assertionError
            else
              match headStartE grp2 with
              | .error e => .error e
              | .ok h0 =>
                if r.fst < h0 then .error .assertionError
                else ovlFold cut max_len s grp2 rest
          else ovlFold cut max_len s grp rest

/-- The accumulate branch: append a copy of the next supervision (derived id
keyed by scan index and position in group), check the ordering assertion, and
when falling back carry overlap fragments from the most recently closed group;
finally clear the falling-back flag. -/
def accumStep (cut : Cut) (max_len : Time) (useOvl : Bool) (st : SplitState) (s : Supervision) :
    Except Err SplitState :=
  let group1 := st.currentGroup ++ [(some { s with id := derivedId s.id st.idx st.currentGroup.length }, st.idx)]
  match headStartE group1 with
  | .error e => .error e
  | .ok g0 =>
    if s.start < g0 then .error .assertionError
    else
      let next : Except Err (List Entry) :=
        if st.isFallingBack && !st.supGroups.isEmpty && useOvl then
          match st.supGroups.getLast? with
          | none => .error .indexError
          | some prev => ovlFold cut max_len s group1 (get_overlapping_sups prev s)
        else .ok group1
      match next with
      | .error e => .error e
      | .ok group2 => .ok { st with currentGroup := group2, isFallingBack := false }

/-- The close-out branch: fold the close-out loop over the group, drop the
tombstoned entries, append the closed group and its flags, check the
`max - min <= max_len` assertion (`ValueError` on an emptied group), seed the
next group, and take the roll-back-or-advance decision. -/
def closeBranch (max_len : Time) (st : SplitState) (sup? : Option Supervision) :
    Except Err (Option SplitState) :=
  match st.currentGroup with
  | [] =>
    match sup? with
    | none => .ok none
    | some _ => .error .indexError
  | e0 :: tl =>
    match deOption (e0 :: tl) with
    | .error e => .error e
    | .ok g =>
      match closeFold max_len
          { updated := g.map some, flags := st.currentFlags, fb := st.fallbackIdx,
            isFB := st.isFallingBack, found := false } (pyEnum 0 g) with
      | .error e => .error e
      | .ok acc =>
        let newGroup := acc.updated.filterMap id
        let st2 : SplitState :=
          { st with supGroups := st.supGroups ++ [newGroup],
                    supGroupFlags := st.supGroupFlags ++ [acc.flags],
                    currentGroup := if acc.found then [] else [(sup?, st.idx)],
                    currentFlags := [],
                    fallbackIdx := acc.fb,
                    isFallingBack := acc.isFB,
                    startIdx := e0.2 }
        match newGroup with
        | [] => .error .valueError
        | n0 :: nrest =>
          if groupMaxEnd n0 nrest - groupMinStart n0 nrest ≤ max_len then
            .ok (some (applyAdvance st2))
          else .error .assertionError

/-- One iteration of the `while` loop of `_split_cut_perseg`;
`.ok none` is the `break`. -/
def splitIter (cut : Cut) (sups : List Supervision) (max_len : Time) (useOvl : Bool)
    (st : SplitState) : Except Err (Option SplitState) :=
  match accumCond sups max_len st with
  | .error e => .error e
  | .ok true =>
    match sups.get? st.idx with
    | none => .error .indexError
    | some s =>
      match accumStep cut max_len useOvl st s with
      | .error e => .error e
      | .ok st' => .ok (some (applyAdvance st'))
  | .ok false => closeBranch max_len st (sups.get? st.idx)

/-- Run the scan loop on explicit fuel. -/
def splitLoop (cut : Cut) (sups : List Supervision) (max_len : Time) (useOvl : Bool) :
    ℕ → SplitState → Except Err SplitState
  | 0, _ => .error .fuelExhausted
  | Nat.succ fuel, st =>
    if st.idx < sups.length + 1 then
      match splitIter cut sups max_len useOvl st with
      | .error e => .error e
      | .ok none => .ok st
      | .ok (some st') => splitLoop cut sups max_len useOvl fuel st'
    else .ok st

/-- Initial state: the group holds a copy of the first (sorted) supervision
with derived id `f"{id}-0-0"`, and the scan starts at index 1. -/
def initState (s0 : Supervision) : SplitState :=
  { supGroups := [], supGroupFlags := [],
    currentGroup := [(some { s0 with id := derivedId s0.id 0 0 }, 0)],
    currentFlags := [], fallbackIdx := -1, isFallingBack := false,
    startIdx := 0, idx := 1 }

/-- Stable insertion into a start-sorted list (Python `sorted` is stable). -/
def insertByStart (s : Supervision) : List Supervision → List Supervision
  | [] => [s]
  | x :: xs => if s.start ≤ x.start then s :: x :: xs else x :: insertByStart s xs

/-- `sorted(cut.supervisions, key=lambda s: s.start)`. -/
def sortByStart : List Supervision → List Supervision
  | [] => []
  | x :: xs => insertByStart x (sortByStart xs)

/-- Build one output cut from a closed group and its flags, checking the two
emission assertions (`start >= 0` for every re-offset supervision and
`duration <= max_len`). -/
def emitOne (cut : Cut) (max_len : Time) (i : ℕ) (g : List (Supervision × ℕ))
    (f : List (String × Bool)) : Except Err Cut :=
  match g with
  | [] => .error .indexError
  | e0 :: rest =>
    let sgStart := e0.1.start
    let sgEnd := groupMaxEnd e0 rest
    let c : Cut :=
      { cut with id := cut.id ++ "-" ++ toString i,
                 supervisions := (e0 :: rest).map (fun e => e.1.with_offset (-sgStart)),
                 start := cut.start + sgStart,
                 duration := sgEnd - sgStart,
                 perSpkFlags := some f }
    if c.supervisions.all (fun x => decide (0 ≤ x.start)) then
      if c.duration ≤ max_len then .ok c else .error .assertionError
    else .error .assertionError

/-- Emit every closed group in order. -/
def emitCuts (cut : Cut) (max_len : Time) :
    ℕ → List (List (Supervision × ℕ) × List (String × Bool)) → Except Err (List Cut)
  | _, [] => .ok []
  | i, (g, f) :: rest =>
    match emitOne cut max_len i g f with
    | .error e => .error e
    | .ok c =>
      match emitCuts cut max_len (i + 1) rest with
      | .error e => .error e
      | .ok cs => .ok (c :: cs)

/-- `_split_cut_perseg`: split one cut into segments of at most `max_len`
seconds. Degenerate cases: no supervisions gives `[]`, a cut strictly shorter
than `max_len` is returned unchanged. -/
def split_cut_perseg (fuel : ℕ) (cut : Cut) (max_len : Time) (useOvl : Bool) :
    Except Err (List Cut) :=
  if cut.supervisions = [] then .ok []
  else if cut.duration < max_len then .ok [cut]
  else
    match sortByStart cut.supervisions with
    | [] => .error .indexError
    | s0 :: srest =>
      match splitLoop cut (s0 :: srest) max_len useOvl fuel (initState s0) with
      | .error e => .error e
      | .ok stF =>
        if stF.supGroups.length = stF.supGroupFlags.length then
          emitCuts cut max_len 0 (stF.supGroups.zip stF.supGroupFlags)
        else .error .assertionError

/-! Concrete inputs used by the claim theorems below. -/

/-- A one-supervision cut strictly shorter than the window. -/
def shortCut : Cut :=
  { id := "w", start := 0, duration := sec 1,
    supervisions := [{ id := "sW", speaker := "W", start := 0, duration := sec 1,
                       text := [], alignment := none }],
    perSpkFlags := none }

/-- A one-supervision cut whose duration equals `max_len` exactly. -/
def exactCut : Cut :=
  { id := "f", start := 0, duration := sec 30,
    supervisions := [{ id := "sF", speaker := "F", start := 0, duration := sec 1,
                       text := ["a"], alignment := some [⟨"a", 0, sec 1⟩] }],
    perSpkFlags := none }

/-- A cut whose single supervision overflows the window and has an *empty*
word-alignment list: the close-out drops it, emptying the group. -/
def emptyAlloCut : Cut :=
  { id := "g", start := 0, duration := sec 31,
    supervisions := [{ id := "sG", speaker := "G", start := 0, duration := sec 31,
                       text := ["a"], alignment := some [] }],
    perSpkFlags := none }

/-- Supervisions for the rollback example: a fitting utterance, an overflowing
one, and a third far enough away to trigger the close-out. -/
def supA : Supervision :=
  { id := "eA", speaker := "P", start := 0, duration := sec 10,
    text := ["a"], alignment := some [⟨"a", 0, sec 1⟩] }

def supB : Supervision :=
  { id := "eB", speaker := "Q", start := sec 5, duration := sec 40,
    text := ["b", "c"], alignment := some [⟨"b", sec 6, sec 1⟩, ⟨"c", sec 40, sec 1⟩] }

def supC : Supervision :=
  { id := "eC", speaker := "R", start := sec 31, duration := sec 2,
    text := ["d"], alignment := some [⟨"d", sec 31, sec 1⟩] }

def rollCut : Cut :=
  { id := "e", start := 0, duration := sec 45,
    supervisions := [supA, supB, supC], perSpkFlags := none }

/-- The scan state of `rollCut` just before its first close-out (scan index 2,
group = copies of `supA` and `supB` appended at scan positions 0 and 1). -/
def rollSt : SplitState :=
  { supGroups := [], supGroupFlags := [],
    currentGroup := [(some { supA with id := "eA-0-0" }, 0),
                     (some { supB with id := "eB-1-1" }, 1)],
    currentFlags := [], fallbackIdx := -1, isFallingBack := false,
    startIdx := 0, idx := 2 }

/-- Supervisions for the non-minimal fallback example: two earlier groups push
the scan position, then two overflowing utterances close out together. -/
def supK2 : Supervision :=
  { id := "s2", speaker := "p2", start := sec 31, duration := sec 40,
    text := ["c", "d"], alignment := some [⟨"c", sec 32, sec 1⟩, ⟨"d", sec 65, sec 1⟩] }

def supK3 : Supervision :=
  { id := "s3", speaker := "p3", start := sec 33, duration := sec 40,
    text := ["e", "f"], alignment := some [⟨"e", sec 34, sec 1⟩, ⟨"f", sec 70, sec 1⟩] }

/-- The group at the second close-out of that run: the raw seed `supK2` stored
at scan position 2 and the copy of `supK3` appended at scan position 3. -/
def fbGroup : List (Supervision × ℕ) :=
  [(supK2, 2), ({ supK3 with id := "s3-3-1" }, 3)]

/-- Same-speaker pair: the first utterance overflows (and is trimmed), the
second fits, so the close-out writes `False` over the speaker's `True`. -/
def flagX1 : Supervision :=
  { id := "x1", speaker := "X", start := 0, duration := sec 40,
    text := ["a", "b"], alignment := some [⟨"a", sec 1, sec 1⟩, ⟨"b", sec 38, sec 1⟩] }

def flagX2 : Supervision :=
  { id := "x2", speaker := "X", start := sec 5, duration := sec 5,
    text := ["c"], alignment := some [⟨"c", sec 5, sec 1⟩] }

def flagCut : Cut :=
  { id := "d", start := 0, duration := sec 40,
    supervisions := [flagX1, flagX2], perSpkFlags := none }

/-- An utterance with a trailing never-aligned token behind an aligned word
that overruns the window. -/
def fillerSup : Supervision :=
  { id := "h", speaker := "H", start := sec 5, duration := sec 40,
    text := ["a", "b", "x"], alignment := some [⟨"a", sec 5, sec 1⟩, ⟨"b", sec 40, sec 1⟩] }

/-- A previous-group member whose derived id contains the new utterance's id
as a substring even though they are distinct utterances. -/
def ovlMember : Supervision :=
  { id := "ab-0-0", speaker := "M", start := 0, duration := sec 10,
    text := [], alignment := none }

def ovlNewSup : Supervision :=
  { id := "b", speaker := "N", start := sec 5, duration := sec 1,
    text := [], alignment := none }

/-- Cut whose speaker `B` utterance has no viable prefix in the first window:
its flag is written (`False`) and then the utterance itself is dropped. -/
def phantomCut : Cut :=
  { id := "c", start := 0, duration := sec 42,
    supervisions := [{ id := "sA", speaker := "A", start := 0, duration := sec 5,
                       text := ["a"], alignment := some [⟨"a", 0, sec 1⟩] },
                     { id := "sB", speaker := "B", start := sec 2, duration := sec 40,
                       text := ["b", "c"],
                       alignment := some [⟨"b", sec 30, sec 1⟩, ⟨"c", sec 40, sec 1⟩] }],
    perSpkFlags := none }

/-! Decidable equality for `Except` values, used to evaluate runs on
concrete inputs. -/

def exceptDecEq {e a : Type} [DecidableEq e] [DecidableEq a] : DecidableEq (Except e a)
  | .error x, .error y =>
    match decEq x y with
    | .isTrue h => .isTrue (congrArg Except.error h)
    | .isFalse h => .isFalse (fun hh => h (by injection hh))
  | .error _, .ok _ => .isFalse (fun hh => Except.noConfusion hh)
  | .ok _, .error _ => .isFalse (fun hh => Except.noConfusion hh)
  | .ok x, .ok y =>
    match decEq x y with
    | .isTrue h => .isTrue (congrArg Except.ok h)
    | .isFalse h => .isFalse (fun hh => h (by injection hh))

instance {e a : Type} [DecidableEq e] [DecidableEq a] : DecidableEq (Except e a) :=
  exceptDecEq

/-! ### C1: emitted sub-segments respect the duration bound -/

theorem emitOne_duration_le {cut : Cut} {max_len : Time} {i : ℕ}
    {g : List (Supervision × ℕ)} {f : List (String × Bool)} {c : Cut}
    (h : emitOne cut max_len i g f = .ok c) : c.duration ≤ max_len := by
  unfold emitOne at h
  match g, h with
  | e0 :: rest, h =>
    simp only at h
    split at h
    · split at h
      · cases h
        assumption
      · exact absurd h (by simp)
    · exact absurd h (by simp)

theorem emitCuts_duration_le {cut : Cut} {max_len : Time} :
    ∀ (ps : List (List (Supervision × ℕ) × List (String × Bool))) (i : ℕ) (out : List Cut),
      emitCuts cut max_len i ps = .ok out → ∀ c ∈ out, c.duration ≤ max_len := by
  intro ps
  induction ps with
  | nil =>
    intro i out h c hc
    unfold emitCuts at h
    cases h
    cases hc
  | cons p rest ih =>
    intro i out h c hc
    obtain ⟨g, f⟩ := p
    unfold emitCuts at h
    cases h1 : emitOne cut max_len i g f with
    | error e => rw [h1] at h; cases h
    | ok c1 =>
      rw [h1] at h
      cases h2 : emitCuts cut max_len (i + 1) rest with
      | error e => rw [h2] at h; cases h
      | ok cs =>
        rw [h2] at h
        cases h
        cases hc with
        | head => exact emitOne_duration_le h1
        | tail _ hmem => exact ih (i + 1) cs h2 c hmem

/-- C1. For every input cut, every sub-segment returned by
`split_cut_perseg` has `duration ≤ max_len + EPS`: the invariant
`duration ≤ max_len` is checked before emission (assertion in the source), a
cut returned unchanged is strictly shorter than `max_len`, and an empty input
yields no output. -/
theorem C1_emitted_duration_le (fuel : ℕ) (cut : Cut) (max_len : Time) (useOvl : Bool)
    (out : List Cut) (h : split_cut_perseg fuel cut max_len useOvl = .ok out) :
    ∀ c ∈ out, c.duration ≤ max_len + EPS := by
  intro c hc
  have he : EPS = 1 := rfl
  unfold split_cut_perseg at h
  split at h
  · cases h
    cases hc
  · split at h
    · cases h
      cases hc with
      | head =>
        rename_i hlt
        rw [he]
        linarith
      | tail _ hmem => cases hmem
    · cases hsort : sortByStart cut.supervisions with
      | nil => rw [hsort] at h; simp at h
      | cons s0 srest =>
        rw [hsort] at h
        dsimp only at h
        cases h3 : splitLoop cut (s0 :: srest) max_len useOvl fuel (initState s0) with
        | error e => rw [h3] at h; simp at h
        | ok stF =>
          rw [h3] at h
          dsimp only at h
          split at h
          · have hb := emitCuts_duration_le _ _ _ h c hc
            rw [he]
            linarith
          · simp at h

/-- Witness for C1 at a concrete cut. -/
theorem C1_emitted_duration_le_witness : shortCut.duration ≤ sec 30 + EPS :=
  C1_emitted_duration_le 0 shortCut (sec 30) true [shortCut] (by decide) shortCut
    (List.mem_singleton.mpr rfl)

/-! ### C2: the rollback decision -/

/-- The deoptioned group of `rollSt`. -/
def rollG : List (Supervision × ℕ) :=
  [({ supA with id := "eA-0-0" }, 0), ({ supB with id := "eB-1-1" }, 1)]

/-- The trimmed copy of `supB` produced by the close-out of `rollSt`. -/
def supBtrimmed : Supervision :=
  { supB with id := "eB-1-1", duration := sec 2, text := ["b"],
              alignment := some [⟨"b", sec 6, sec 1⟩] }

/-- The close-out accumulator produced on `rollG`: `supB`'s copy is trimmed to
its word `b`, the recorded fallback target is scan position 1, and the group
started at scan position 0. -/
def rollAcc : CloseAcc :=
  { updated := [some ({ supA with id := "eA-0-0" }, 0), some (supBtrimmed, 1)],
    flags := [("P", false), ("Q", true)],
    fb := 1, isFB := true, found := true }

/-- The state after the close-out of `rollSt`. -/
def rollStAfter : SplitState :=
  { supGroups := [[({ supA with id := "eA-0-0" }, 0), (supBtrimmed, 1)]],
    supGroupFlags := [[("P", false), ("Q", true)]],
    currentGroup := [], currentFlags := [],
    fallbackIdx := -1, isFallingBack := true, startIdx := 0, idx := 1 }

/-- C2, counterexample. At the first close-out of `rollCut` the recorded
rollback target is scan position 1, which is *later* (not earlier) than the
scan position 0 that started the just-closed group; the claim therefore
predicts a normal advance to index 3, but the splitter resumes scanning at
index 1. -/
theorem C2_rollback_counterexample :
    (closeFold (sec 30)
        { updated := rollG.map some, flags := [], fb := -1, isFB := false, found := false }
        (pyEnum 0 rollG)).map (fun a => a.fb) = .ok 1 ∧
    (splitIter rollCut [supA, supB, supC] (sec 30) true rollSt).map
      (fun o => o.map (fun s => (s.idx, s.fallbackIdx))) = .ok (some (1, -1)) :=
  ⟨by decide, by decide⟩

/-- C2, amended. After a close-out in which a rollback target was recorded,
the splitter resumes scanning from the target exactly when the recorded
target position is *later* than the scan position of the utterance that
started the just-closed group; otherwise it advances the scan index
normally (keeping any recorded target). -/
theorem C2_rollback_amended (max_len : Time) (st : SplitState) (sup? : Option Supervision)
    (e0 : Entry) (tl : List Entry) (g : List (Supervision × ℕ)) (acc : CloseAcc)
    (st' : SplitState)
    (hg : st.currentGroup = e0 :: tl)
    (hde : deOption (e0 :: tl) = .ok g)
    (hfold : closeFold max_len
      { updated := g.map some, flags := st.currentFlags, fb := st.fallbackIdx,
        isFB := st.isFallingBack, found := false } (pyEnum 0 g) = .ok acc)
    (hok : closeBranch max_len st sup? = .ok (some st')) :
    (acc.fb ≠ -1 ∧ (e0.2 : ℤ) < acc.fb → st'.idx = acc.fb.toNat ∧ st'.fallbackIdx = -1) ∧
    (¬(acc.fb ≠ -1 ∧ (e0.2 : ℤ) < acc.fb) → st'.idx = st.idx + 1 ∧ st'.fallbackIdx = acc.fb) := by
  unfold closeBranch at hok
  rw [hg] at hok
  simp only at hok
  rw [hde] at hok
  simp only at hok
  rw [hfold] at hok
  simp only at hok
  split at hok
  · cases hok
  · split at hok
    · cases hok
      constructor
      · intro hcond
        rw [applyAdvance, if_pos]
        · exact ⟨rfl, rfl⟩
        · exact hcond
      · intro hcond
        rw [applyAdvance, if_neg]
        · exact ⟨rfl, rfl⟩
        · exact hcond
    · cases hok

/-- Witness for the amended C2 on the concrete `rollSt` close-out. -/
theorem C2_rollback_amended_witness :
    closeBranch (sec 30) rollSt (some supC) = .ok (some rollStAfter) ∧
    rollStAfter.idx = 1 ∧ rollStAfter.fallbackIdx = -1 := by
  have hok : closeBranch (sec 30) rollSt (some supC) = .ok (some rollStAfter) := by decide
  have hres := C2_rollback_amended (sec 30) rollSt (some supC) _ _ rollG rollAcc rollStAfter
    rfl (by decide) (by decide) hok
  exact ⟨hok, (hres.1 (by decide)).1, (hres.1 (by decide)).2⟩

/-! ### C3: the unchanged-return path -/

/-- C3, counterexample. A cut whose duration *equals* `max_len` is not
returned unchanged: the code's early return requires `duration < max_len`
strictly, so the algorithm runs and re-derives the cut (new id, re-offset
supervisions, added metadata). -/
theorem C3_identity_counterexample :
    split_cut_perseg 5 exactCut (sec 30) true ≠ .ok [exactCut] ∧
    exactCut.duration = sec 30 :=
  ⟨by decide, by decide⟩

/-- C3, amended. A cut with at least one supervision whose duration is
*strictly less* than `max_len` is returned unchanged as a single-element
output. -/
theorem C3_identity_amended (fuel : ℕ) (cut : Cut) (max_len : Time) (useOvl : Bool)
    (h1 : cut.supervisions ≠ []) (h2 : cut.duration < max_len) :
    split_cut_perseg fuel cut max_len useOvl = .ok [cut] := by
  unfold split_cut_perseg
  rw [if_neg h1, if_pos h2]

/-- Witness for the amended C3 at a concrete cut. -/
theorem C3_identity_amended_witness : split_cut_perseg 0 shortCut (sec 30) true = .ok [shortCut] :=
  C3_identity_amended 0 shortCut (sec 30) true (by decide) (by decide)

/-! ### C4: a recoverable condition that raises -/

/-- C4. A cut whose single supervision overflows the window with an empty
word-alignment list (a no-viable-prefix utterance) empties its group at
close-out, and `max()` over the emptied group raises (`ValueError`) instead
of recovering. -/
theorem C4_empty_group_crash :
    split_cut_perseg 10 emptyAlloCut (sec 30) true = .error .valueError := by decide

/-! ### C5: the recorded rollback target is not the earliest -/

/-- Initial close-out accumulator for `fbGroup`. -/
def fbAcc : CloseAcc :=
  { updated := fbGroup.map some, flags := [], fb := -1, isFB := false, found := false }

/-- C5. At the close-out of `fbGroup` both members (at scan positions 2
and 3) overflow the window that starts at `supK2.start`, so the earliest
overflow scan position is 2; but the recorded fallback target is 3: the
update guard compares the target against the *position within the group*
`i` instead of the scan position, letting a later overflow overwrite an
earlier target. -/
theorem C5_fallback_target_not_earliest :
    (closeFold (sec 30) fbAcc (pyEnum 0 fbGroup)).map (fun a => a.fb) = .ok 3 ∧
    fbGroup.map (fun e => e.2) = [2, 3] ∧
    supK2.endTime - supK2.start > sec 30 ∧
    ({ supK3 with id := "s3-3-1" } : Supervision).endTime - supK2.start > sec 30 :=
  ⟨by decide, by decide, by decide, by decide⟩

/-! ### C10: a dropped speaker's flag survives in the emitted metadata -/

/-- C10. On `phantomCut`, speaker `B`'s only utterance in the first group is
removed as having no viable prefix, yet the first emitted sub-segment's
per-speaker mapping still contains `("B", false)` while none of its
supervisions belongs to `B`. -/
theorem C10_phantom_flag_instance :
    (split_cut_perseg 20 phantomCut (sec 30) true).map
      (fun l => l.map (fun c => (c.perSpkFlags, c.supervisions.map Supervision.speaker))) =
    .ok [(some [("A", false), ("B", false)], ["A"]),
         (some [("B", true)], ["B"])] := by decide

/-! ### C7: unmatched filler tokens -/

/-- C7, counterexample. In `fillerSup` the token `x` matches no alignment
sub-word (the alignment symbols are `a` and `b`), and the aligned token `a`
is selected before `x` is reached; the claim then requires `x` to be appended
to the selection, but the matcher has already stopped at `b` (whose aligned
end exceeds the window), so the selected words are just `["a"]`. -/
theorem C7_filler_counterexample :
    select_words_within_segment fillerSup 0 (sec 30) =
      .ok { words := ["a"], aligs := [⟨"a", sec 5, sec 1⟩], fst := sec 5, last := sec 6,
            aligIdx := 1 } := by decide

/-- The matcher's current cursor does not match the token `w`: either the
alignment stream is exhausted, or the current entry's next sub-word differs
from the normalized token (also via the equivalence table). -/
def noMatchAt (aligs : List Word) (st : MatchState) (w : String) : Prop :=
  aligs.get? st.aligIdx = none ∨
  ∃ cur s0 rest, aligs.get? st.aligIdx = some cur ∧ st.splitRem = s0 :: rest ∧
    ¬(normalize_word w = s0 ∨ List.lookup (normalize_word w) ALIGNMENT_WORD_MAP = some s0)

/-- C7, amended. As long as the matcher has not stopped, a token that matches
no alignment sub-word is skipped while no aligned token has been selected
(`fst = -1`) and appended to the selection once one has been, in both cases
without consuming an alignment entry and without its own timing; tokens
processed after the matcher stops are discarded. -/
theorem C7_filler_amended (aligs : List Word) (segStart segEnd : Time) (st : MatchState)
    (w : String) (hstop : st.stopped = false) (hnm : noMatchAt aligs st w) :
    matchTok aligs segStart segEnd st w =
      .ok { st with words := st.words ++ if st.fst = -1 then [] else [w] } := by
  unfold matchTok
  rw [hstop]
  simp only [Bool.false_eq_true, if_false]
  cases hnm with
  | inl h => rw [h]
  | inr h =>
    obtain ⟨cur, s0, rest, h1, h2, h3⟩ := h
    rw [h1, h2]
    dsimp only
    rw [if_neg h3]

/-- Alignment stream and matcher state for the C7 witness: one aligned token
already selected, cursor on the entry `b`. -/
def mAligs7 : List Word := [⟨"a", sec 5, sec 1⟩, ⟨"b", sec 40, sec 1⟩]

def mState7 : MatchState :=
  { words := ["a"], aligs := [⟨"a", sec 5, sec 1⟩], fst := sec 5, last := sec 6,
    aligIdx := 1, splitRem := ["b"], stopped := false }

/-- Witness for the amended C7: the non-matching token `x` is appended
without consuming the cursor. -/
theorem C7_filler_amended_witness :
    matchTok mAligs7 0 (sec 30) mState7 "x" = .ok { mState7 with words := ["a", "x"] } := by
  rw [C7_filler_amended mAligs7 0 (sec 30) mState7 "x" rfl
    (Or.inr ⟨⟨"b", sec 40, sec 1⟩, "b", [], rfl, rfl, by decide⟩)]
  decide

/-! ### C8: the overlap candidate set -/

/-- C8, counterexample. `ovlMember` (id `ab-0-0`) overlaps `ovlNewSup`
(id `b`) and is a distinct utterance, yet it is excluded from the candidate
set because `b` occurs as a substring of `ab-0-0`. -/
theorem C8_overlap_counterexample :
    get_overlapping_sups [(ovlMember, 0)] ovlNewSup = [] ∧
    ovlMember.start ≤ ovlNewSup.start ∧ ovlNewSup.start < ovlMember.endTime ∧
    ovlMember.id ≠ ovlNewSup.id ∧ strIn ovlNewSup.id ovlMember.id = true :=
  ⟨by decide, by decide, by decide, by decide, by decide⟩

/-- C8, amended. The candidate set is exactly the members of the previous
group whose interval contains the new utterance's start time and whose id
does *not contain the new utterance's id as a substring* — which excludes the
same underlying utterance, but can also exclude distinct utterances. -/
theorem C8_overlap_amended (prev : List (Supervision × ℕ)) (sup : Supervision)
    (e : Supervision × ℕ) :
    e ∈ get_overlapping_sups prev sup ↔
      e ∈ prev ∧ e.1.start ≤ sup.start ∧ sup.start < e.1.endTime ∧
        strIn sup.id e.1.id = false := by
  unfold get_overlapping_sups
  rw [List.mem_filter]
  simp [Bool.and_eq_true, decide_eq_true_eq, Bool.not_eq_true', and_assoc]

/-! ### C6: per-speaker continuation flags -/

/-- C6, counterexample. On `flagCut`, speaker `X`'s first utterance is
trimmed by the boundary trimming at close-out (output text `["a"]`,
duration 2 s instead of 40 s), but the emitted continuation flag for `X` is
`false`: the same speaker's later, non-overflowing utterance reset it. -/
theorem C6_flag_counterexample :
    (split_cut_perseg 20 flagCut (sec 30) true).map
      (fun l => l.map (fun c =>
        (c.perSpkFlags, c.supervisions.map (fun s => (s.speaker, s.text, s.duration))))) =
    .ok [(some [("X", false)],
          [("X", ["a"], sec 2), ("X", ["c"], sec 5)])] := by decide

/-- Python dict lookup `d.get(k)` on the flag association list. -/
def lookupFlag : List (String × Bool) → String → Option Bool
  | [], _ => none
  | p :: ps, k => if p.1 = k then some p.2 else lookupFlag ps k

theorem lookupFlag_setFlag_self (fs : List (String × Bool)) (k : String) (v : Bool) :
    lookupFlag (setFlag fs k v) k = some v := by
  induction fs with
  | nil => simp [setFlag, lookupFlag]
  | cons p ps ih =>
    by_cases h : p.1 = k
    · simp [setFlag, h, lookupFlag]
    · simp [setFlag, h, lookupFlag, ih]

theorem lookupFlag_setFlag_ne (fs : List (String × Bool)) (k k' : String) (v : Bool)
    (h : k ≠ k') : lookupFlag (setFlag fs k v) k' = lookupFlag fs k' := by
  induction fs with
  | nil => simp [setFlag, lookupFlag, h]
  | cons p ps ih =>
    by_cases hp : p.1 = k
    · simp [setFlag, hp, lookupFlag, h, ih]
    · simp [setFlag, hp, lookupFlag, ih]

theorem setFlag_setFlag (fs : List (String × Bool)) (k : String) (a b : Bool) :
    setFlag (setFlag fs k a) k b = setFlag fs k b := by
  induction fs with
  | nil => simp [setFlag]
  | cons p ps ih =>
    by_cases h : p.1 = k
    · simp [setFlag, h]
    · simp [setFlag, h, ih]

/-- The trim outcome of one supervision at a close-out whose window starts at
`gStart`: `true` iff it overflows the window and its selection keeps at least
one full alignment entry (so it is replaced by its trimmed version). -/
def entryContinues (max_len gStart : Time) (s : Supervision) : Bool :=
  decide (s.endTime - gStart > max_len) &&
    (match select_words_within_segment s gStart (segment_end gStart max_len) with
     | .ok r => decide (r.aligIdx ≠ 0)
     | .error _ => false)

/-- The flag updates performed by a close-out, as a pure fold over the
supervisions of the group. -/
def applyFlagsList (max_len t : Time) : List (String × Bool) → List Supervision → List (String × Bool)
  | flags, [] => flags
  | flags, s :: ss => applyFlagsList max_len t (setFlag flags s.speaker (entryContinues max_len t s)) ss

theorem closeStep_ok_flags (max_len : Time) (acc : CloseAcc) (p : ℕ × Supervision × ℕ)
    (acc' : CloseAcc) (t : Time)
    (hhead : readHeadStart acc.updated = .ok t)
    (h : closeStep max_len acc p = .ok acc') :
    acc'.flags = setFlag acc.flags p.2.1.speaker (entryContinues max_len t p.2.1) := by
  unfold closeStep at h
  rw [hhead] at h
  dsimp only at h
  split at h
  · rename_i hov
    cases hsel : select_words_within_segment p.2.1 t (segment_end t max_len) with
    | error e => rw [hsel] at h; cases h
    | ok r =>
      rw [hsel] at h
      dsimp only at h
      cases h
      unfold entryContinues
      rw [hsel]
      rw [decide_eq_true hov]
      by_cases hz : r.aligIdx = 0
      · simp [hz]
      · simp [hz, setFlag_setFlag]
  · rename_i hov
    cases h
    unfold entryContinues
    rw [decide_eq_false hov]
    simp

theorem readHeadStart_set_succ (l : List (Option (Supervision × ℕ))) (n : ℕ)
    (x : Option (Supervision × ℕ)) :
    readHeadStart (l.set (n + 1) x) = readHeadStart l := by
  cases l with
  | nil => rfl
  | cons a as =>
    cases a with
    | none => rfl
    | some q => rfl

/-- A close-out step on a group whose head entry is tombstoned raises
(Python's `None[0]` `TypeError`). -/
theorem closeStep_head_tomb (max_len : Time) (acc : CloseAcc) (p : ℕ × Supervision × ℕ)
    (h : acc.updated.head? = some none) :
    closeStep max_len acc p = .error .typeError := by
  have hr : readHeadStart acc.updated = .error .typeError := by
    cases hl : acc.updated with
    | nil => rw [hl] at h; simp at h
    | cons a as =>
      rw [hl] at h
      simp only [List.head?_cons, Option.some.injEq] at h
      subst h
      rfl
  unfold closeStep
  rw [hr]

theorem closeStep_ok_head (max_len : Time) (acc : CloseAcc) (p : ℕ × Supervision × ℕ)
    (acc' : CloseAcc) (t : Time)
    (hhead : readHeadStart acc.updated = .ok t)
    (hidx : p.1 = 0 → p.2.1.start = t)
    (h : closeStep max_len acc p = .ok acc') :
    readHeadStart acc'.updated = .ok t ∨ acc'.updated.head? = some none := by
  have hne : acc.updated ≠ [] := by
    intro hnil
    rw [hnil] at hhead
    cases hhead
  unfold closeStep at h
  rw [hhead] at h
  dsimp only at h
  split at h
  · cases hsel : select_words_within_segment p.2.1 t (segment_end t max_len) with
    | error e => rw [hsel] at h; cases h
    | ok r =>
      rw [hsel] at h
      dsimp only at h
      cases h
      dsimp only
      by_cases hz : r.aligIdx = 0
      · rw [if_pos hz]
        cases hp : p.1 with
        | zero =>
          right
          cases hl : acc.updated with
          | nil => exact absurd hl hne
          | cons a as => simp [List.set]
        | succ n =>
          left
          rw [readHeadStart_set_succ]
          exact hhead
      · rw [if_neg hz]
        cases hp : p.1 with
        | zero =>
          left
          cases hl : acc.updated with
          | nil => exact absurd hl hne
          | cons a as =>
            simp only [List.set]
            have hs : p.2.1.start = t := hidx hp
            simp [readHeadStart, hs]
        | succ n =>
          left
          rw [readHeadStart_set_succ]
          exact hhead
  · cases h
    left
    exact hhead

theorem pyEnum_fst_ge {α : Type} : ∀ (n : ℕ) (l : List α) (p : ℕ × α),
    p ∈ pyEnum n l → n ≤ p.1 := by
  intro n l
  induction l generalizing n with
  | nil => intro p hp; cases hp
  | cons x xs ih =>
    intro p hp
    cases hp with
    | head => exact le_refl n
    | tail _ hmem => exact Nat.le_of_succ_le (ih (n + 1) p hmem)

theorem pyEnum_map_snd {α β : Type} (f : α → β) : ∀ (n : ℕ) (l : List α),
    (pyEnum n l).map (fun p => f p.2) = l.map f := by
  intro n l
  induction l generalizing n with
  | nil => rfl
  | cons x xs ih => simp [pyEnum, ih]

/-- The flags computed by an (error-free) close-out fold are exactly the pure
per-supervision flag updates, provided the group's head keeps start time `t`
(which the trimming preserves). -/
theorem closeFold_ok_flags (max_len : Time) :
    ∀ (l : List (ℕ × Supervision × ℕ)) (acc : CloseAcc) (t : Time) (acc' : CloseAcc),
      readHeadStart acc.updated = .ok t →
      (∀ p ∈ l, p.1 = 0 → p.2.1.start = t) →
      closeFold max_len acc l = .ok acc' →
      acc'.flags = applyFlagsList max_len t acc.flags (l.map (fun p => p.2.1)) := by
  intro l
  induction l with
  | nil =>
    intro acc t acc' _ _ h
    cases h
    rfl
  | cons p l ih =>
    intro acc t acc' hhead hl h
    unfold closeFold at h
    cases hstep : closeStep max_len acc p with
    | error e => rw [hstep] at h; cases h
    | ok a1 =>
      rw [hstep] at h
      have hflags := closeStep_ok_flags max_len acc p a1 t hhead hstep
      have hheads := closeStep_ok_head max_len acc p a1 t hhead
        (fun hz => hl p (List.mem_cons_self p l) hz) hstep
      cases hheads with
      | inl hh1 =>
        have := ih a1 t acc' hh1 (fun q hq => hl q (List.mem_cons_of_mem p hq)) h
        rw [this, hflags]
        rfl
      | inr htomb =>
        cases l with
        | nil =>
          cases h
          rw [hflags]
          rfl
        | cons q l' =>
          unfold closeFold at h
          rw [closeStep_head_tomb max_len a1 q htomb] at h
          cases h

/-- Looking a speaker up in the pure flag-update fold yields the trim outcome
of the speaker's *last* supervision in the list. -/
theorem lookupFlag_applyFlagsList (max_len t : Time) :
    ∀ (ss : List Supervision) (flags : List (String × Bool)) (spk : String),
      lookupFlag (applyFlagsList max_len t flags ss) spk =
        match ss.reverse.find? (fun s => s.speaker == spk) with
        | some s => some (entryContinues max_len t s)
        | none => lookupFlag flags spk := by
  intro ss
  induction ss with
  | nil => intro flags spk; rfl
  | cons s ss ih =>
    intro flags spk
    have hstep : applyFlagsList max_len t flags (s :: ss) =
        applyFlagsList max_len t (setFlag flags s.speaker (entryContinues max_len t s)) ss := rfl
    rw [hstep, ih]
    rw [List.reverse_cons, List.find?_append]
    cases hf : ss.reverse.find? (fun x => x.speaker == spk) with
    | some x => rfl
    | none =>
      simp only [Option.none_or]
      by_cases hsp : s.speaker = spk
      · subst hsp
        simp [List.find?, lookupFlag_setFlag_self]
      · have hb : (s.speaker == spk) = false := beq_eq_false_iff_ne.mpr hsp
        simp [List.find?, hb, lookupFlag_setFlag_ne _ _ _ _ hsp]

/-- `current_sup_group[0][0].start` of a (pair-form) group. -/
def groupHeadStart (g : List (Supervision × ℕ)) : Time :=
  match g with
  | [] => 0
  | e :: _ => e.1.start

/-- C6, amended. After an error-free close-out of a group (with the flag
dictionary starting empty, as in every close-out of the scan), a speaker's
continuation flag is determined by that speaker's *last* supervision in the
group's iteration order: `true` iff that supervision overflowed the window
and was replaced by its trimmed version, `false` otherwise; in particular a
speaker none of whose supervisions overflowed has flag `false`, but a speaker
whose trimmed supervision precedes a later non-overflowing one is reset to
`false`. Speakers with no supervision in the group have no entry. -/
theorem C6_flag_amended (max_len : Time) (g : List (Supervision × ℕ)) (acc' : CloseAcc)
    (spk : String)
    (hfold : closeFold max_len
      { updated := g.map some, flags := [], fb := -1, isFB := false, found := false }
      (pyEnum 0 g) = .ok acc') :
    lookupFlag acc'.flags spk =
      match (g.map (fun e => e.1)).reverse.find? (fun s => s.speaker == spk) with
      | some s => some (entryContinues max_len (groupHeadStart g) s)
      | none => none := by
  cases g with
  | nil =>
    cases hfold
    rfl
  | cons e0 gt =>
    have hhead : readHeadStart ((e0 :: gt).map some) = .ok e0.1.start := by
      obtain ⟨s0, i0⟩ := e0
      rfl
    have hl : ∀ p ∈ pyEnum 0 (e0 :: gt), p.1 = 0 → p.2.1.start = e0.1.start := by
      intro p hp hz
      cases hp with
      | head => rfl
      | tail _ hmem =>
        have := pyEnum_fst_ge 1 gt p hmem
        omega
    have hA := closeFold_ok_flags max_len (pyEnum 0 (e0 :: gt))
      { updated := (e0 :: gt).map some, flags := [], fb := -1, isFB := false, found := false }
      e0.1.start acc' hhead hl hfold
    rw [hA, pyEnum_map_snd (fun e => e.1) 0 (e0 :: gt)]
    rw [lookupFlag_applyFlagsList]
    have hgh : groupHeadStart (e0 :: gt) = e0.1.start := rfl
    rw [hgh]
    cases ((e0 :: gt).map (fun e => e.1)).reverse.find? (fun s => s.speaker == spk) with
    | some x => rfl
    | none => rfl

/-- The close-out accumulator computed on `flagG`. -/
def flagG : List (Supervision × ℕ) :=
  [({ flagX1 with id := "x1-0-0" }, 0), ({ flagX2 with id := "x2-1-1" }, 1)]

/-- The trimmed first member of `flagG`. -/
def flagX1trimmed : Supervision :=
  { flagX1 with id := "x1-0-0", duration := sec 2, text := ["a"],
                alignment := some [⟨"a", sec 1, sec 1⟩] }

/-- The close-out accumulator computed on `flagG`. -/
def flagAcc : CloseAcc :=
  { updated := [some (flagX1trimmed, 0), some ({ flagX2 with id := "x2-1-1" }, 1)],
    flags := [("X", false)], fb := 0, isFB := true, found := true }

/-- Witness for the amended C6: on `flagG` the last supervision of speaker
`X` does not overflow, so the flag is `false` even though the first one was
trimmed (its trim outcome is `true`). -/
theorem C6_flag_amended_witness :
    lookupFlag flagAcc.flags "X" = some false ∧
    entryContinues (sec 30) (groupHeadStart flagG) ({ flagX1 with id := "x1-0-0" }) = true := by
  constructor
  · have h := C6_flag_amended (sec 30) flagG flagAcc "X" (by decide)
    rw [h]
    decide
  · decide
